import Mathlib

/-!
Verification development for the distributed log analyser
(`src/implementation/stage2/distributed_log_analyzer.py` and
`src/implementation/base_log_analyzer.py`).

The Python program is shallowly embedded: Python dictionaries become
association lists that preserve insertion order, the master's mutable
state (`maps`, `recieved`, `results`, `timers`) becomes an explicit
record, and the monitoring loop becomes a step function over an event
list.  Machine-level details irrelevant to the claims (MPI transport,
wall-clock floats) are modelled with `Nat` timestamps; `curr - t > 5.0`
on non-negative floats coincides with truncated `Nat` subtraction.
-/

set_option autoImplicit false

namespace LogAnalyzer

/-! ## Python dictionaries of counts

A Python `dict[str, int]` keeps insertion order; we model it as an
association list without duplicate keys (the operations below never
create one).  A `defaultdict(int)` and a plain `dict` differ only in
`total[k] += v` on a missing key: the former inserts, the latter raises
`KeyError`.  Both behaviours are embedded separately below.
-/

abbrev CountsMap := List (String × Nat)

/-- Membership test of a key, Python `k in d`. -/
def hasKey (m : CountsMap) (k : String) : Bool :=
  m.any (fun p => p.1 == k)

/-- Lookup with default 0 (reads of a `defaultdict(int)`). -/
def getCount (m : CountsMap) (k : String) : Nat :=
  match m.find? (fun p => p.1 == k) with
  | some p => p.2
  | none => 0

/-- `d[k] = v`: overwrite in place, or append preserving insertion order. -/
def setCount (m : CountsMap) (k : String) (v : Nat) : CountsMap :=
  match m with
  | [] => [(k, v)]
  | p :: t => if p.1 == k then (k, v) :: t else p :: setCount t k v

/-- `total[k] += c` on a `defaultdict(int)` (missing key counts as 0). -/
def bumpD (m : CountsMap) (k : String) (c : Nat) : CountsMap :=
  setCount m k (getCount m k + c)

/-- `merge_counts(total, new)` where `total` is a `defaultdict(int)`:
`for level, count in new.items(): total[level] += count`. -/
def mergeCountsD (total new : CountsMap) : CountsMap :=
  new.foldl (fun t p => bumpD t p.1 p.2) total

/-- `merge_counts(total, new)` where `total` is a plain `dict` (as
obtained from `json.load`): `total[level] += count` raises `KeyError`
when `level` is not already a key, modelled as `none`. -/
def mergeCountsP (total : CountsMap) : List (String × Nat) → Option CountsMap
  | [] => some total
  | p :: t =>
    if hasKey total p.1 then mergeCountsP (setCount total p.1 (getCount total p.1 + p.2)) t
    else none

/-- Folding a list of partial results into a `defaultdict(int)` total
(lines 233-235 of the stage-2 file on a fresh run, where `total_counts`
is the `defaultdict` created at line 107). -/
def mergeAllD (init : CountsMap) (rs : List CountsMap) : CountsMap :=
  rs.foldl mergeCountsD init

/-- Folding a list of partial results into a plain-`dict` total
(lines 233-235 on a resumed run, where line 117 replaced `total_counts`
with the plain `dict` parsed from `checkpoint.json`). -/
def mergeAllP (init : CountsMap) : List CountsMap → Option CountsMap
  | [] => some init
  | r :: rs =>
    match mergeCountsP init r with
    | some m => mergeAllP m rs
    | none => none

/-- Sum of all stored counts of a dictionary. -/
def sumCounts (m : CountsMap) : Nat :=
  (m.map (fun p => p.2)).sum

theorem getCount_cons (p : String × Nat) (t : CountsMap) (k : String) :
    getCount (p :: t) k = if p.1 == k then p.2 else getCount t k := by
  by_cases h : p.1 == k <;> simp [getCount, List.find?, h]

theorem getCount_le_sumCounts (m : CountsMap) (k : String) :
    getCount m k ≤ sumCounts m := by
  induction m with
  | nil => simp [getCount, sumCounts]
  | cons q t ih =>
    by_cases hq : q.1 == k
    · simp only [getCount_cons, hq, if_pos, sumCounts, List.map_cons, List.sum_cons]
      simp only [sumCounts] at ih
      omega
    · simp only [getCount_cons, hq, if_neg, Bool.false_eq_true, not_false_iff, sumCounts,
        List.map_cons, List.sum_cons]
      simp only [sumCounts] at ih
      omega

theorem sumCounts_setCount (m : CountsMap) (k : String) (v : Nat) :
    sumCounts (setCount m k v) = sumCounts m - getCount m k + v := by
  induction m with
  | nil => simp [setCount, sumCounts, getCount]
  | cons p t ih =>
    by_cases h : p.1 == k
    · simp only [setCount, h, if_pos, sumCounts, List.map_cons, List.sum_cons, getCount_cons]
      omega
    · have hle := getCount_le_sumCounts t k
      simp only [setCount, h, if_neg, Bool.false_eq_true, not_false_iff, sumCounts,
        List.map_cons, List.sum_cons, getCount_cons] at *
      omega

theorem sumCounts_bumpD (m : CountsMap) (k : String) (c : Nat) :
    sumCounts (bumpD m k c) = sumCounts m + c := by
  have hle := getCount_le_sumCounts m k
  simp [bumpD, sumCounts_setCount]
  omega

/-! ## `analyse_log_file`

Lines 26-54 of `stage2/distributed_log_analyzer.py` (identical to
lines 14-42 of `base_log_analyzer.py`): each line is tested with
Python's substring operator `in` against the four level tags in a fixed
`if/elif` chain; the file contents are modelled as the list of its
lines. -/

/-- Does `p` occur at the head of `s` (character lists)? -/
def leadsWith : List Char → List Char → Bool
  | [], _ => true
  | _ :: _, [] => false
  | p :: ps, c :: cs => p == c && leadsWith ps cs

/-- Python's substring test `pat in s`, on character lists. -/
def containsSub (pat : List Char) : List Char → Bool
  | [] => leadsWith pat []
  | c :: t => leadsWith pat (c :: t) || containsSub pat t

/-- Python's substring test `tag in line` on strings. -/
def strHas (line tag : String) : Bool :=
  containsSub tag.data line.data

inductive LogLevel where
  | INFO
  | WARN
  | ERROR
  | DEBUG
deriving DecidableEq, Repr

/-- The dictionary key each branch increments. -/
def levelKey : LogLevel → String
  | .INFO => "INFO"
  | .WARN => "WARN"
  | .ERROR => "ERROR"
  | .DEBUG => "DEBUG"

/-- The `if/elif` chain of `analyse_log_file`, deciding which (single)
counter a line increments. -/
def classifyLine (line : String) : Option LogLevel :=
  if strHas line "[INFO]" then some .INFO
  else if strHas line "[WARN]" || strHas line "[WARNING]" then some .WARN
  else if strHas line "[ERROR]" then some .ERROR
  else if strHas line "[DEBUG]" then some .DEBUG
  else none

/-- `analyse_log_file`, over the list of lines of the file: a fresh
`defaultdict(int)` accumulates one increment per classified line. -/
def analyseLogFile (lines : List String) : CountsMap :=
  lines.foldl
    (fun c l =>
      match classifyLine l with
      | some lv => bumpD c (levelKey lv) 1
      | none => c)
    []

theorem sumCounts_analyse_step (c : CountsMap) (l : String) :
    sumCounts (match classifyLine l with
               | some lv => bumpD c (levelKey lv) 1
               | none => c) ≤ sumCounts c + 1 := by
  cases h : classifyLine l with
  | none => simp
  | some lv => simp [sumCounts_bumpD]

theorem sumCounts_analyse_foldl (ls : List String) (c : CountsMap) :
    sumCounts (ls.foldl
      (fun c l =>
        match classifyLine l with
        | some lv => bumpD c (levelKey lv) 1
        | none => c) c) ≤ sumCounts c + ls.length := by
  induction ls generalizing c with
  | nil => simp
  | cons l t ih =>
    have h1 := sumCounts_analyse_step c l
    have h2 := ih (match classifyLine l with
                   | some lv => bumpD c (levelKey lv) 1
                   | none => c)
    simp only [List.foldl_cons, List.length_cons]
    omega

/-! ## Master state

The rank-0 branch of `main` keeps its run state in local variables:
`log_files`, `maps` (per-unit state: `0` Pending, `-1` Done, `w ≥ 1`
Assigned to worker `w`), `recieved` (count of result entries received),
`results` (list of per-file partial results), `timers` (per-rank
last-dispatch/last-report timestamps, `0.0` meaning cleared).  We also
record the outbound messages (`sent` batches with their target worker,
and `stops`, the tag-3 stop signals) to observe dispatch behaviour. -/

structure MasterState where
  logFiles : List String
  maps : List Int
  recieved : Nat
  results : List CountsMap
  timers : List Nat
  stops : List Nat
  sent : List (Nat × List Nat)
deriving Repr, DecidableEq

/-- The indices currently Pending, in ascending order. -/
def pendingIdx (maps : List Int) : List Nat :=
  (List.range maps.length).filter (fun i => maps.getD i 0 == 0)

/-- Line 211: `maps = [-1 if i in result["index"] else maps[i] for i in
range(len(maps))]`. -/
def markDone (idxs : List Nat) (maps : List Int) : List Int :=
  (List.range maps.length).map (fun i => if i ∈ idxs then -1 else maps.getD i 0)

/-- Line 227 (and the index-assignments of lines 161-164): every index
in `batch` is set to `w`, the rest are kept. -/
def assignBatch (batch : List Nat) (w : Int) (maps : List Int) : List Int :=
  (List.range maps.length).map (fun i => if i ∈ batch then w else maps.getD i 0)

/-- Lines 205-215, the acceptance of a completion message: the received
counter grows by the number of result entries, the results are appended,
every reported index is marked Done unconditionally, and the sender's
timer is reset to the current time. -/
def completeMsg (w : Nat) (idxs : List Nat) (res : List CountsMap) (now : Nat)
    (st : MasterState) : MasterState :=
  { st with
    recieved := st.recieved + res.length
    results := st.results ++ res
    maps := markDone idxs st.maps
    timers := st.timers.set (w - 1) now }

/-- Lines 217-227: if any unit is Pending, the first (up to) 10 Pending
indices are sent to the reporting worker and marked Assigned to it.  The
dispatch does not touch `timers`. -/
def dispatchNext (w : Nat) (st : MasterState) : MasterState :=
  if 0 ∈ st.maps then
    let nextFiles := (pendingIdx st.maps).take 10
    { st with
      maps := assignBatch nextFiles (w : Int) st.maps
      sent := st.sent ++ [(w, nextFiles)] }
  else st

/-- First index of value `t` in a list (Python `list.index`, total here
with fallback 0; the scan only calls it on a present value). -/
def idxOf (t : Nat) : List Nat → Nat
  | [] => 0
  | x :: xs => if x == t then 0 else idxOf t xs + 1

/-- Lines 196-204 for one position of `timers`: `for t in timers`
iterates positions and reads the current value; on timeout the worker
`timers.index(t)+1` is sent a stop signal, its units are reclaimed to
Pending, and its timer is cleared.  No check that the worker still holds
Assigned units is made. -/
def scanStep (curr : Nat) (st : MasterState) (pos : Nat) : MasterState :=
  let t := st.timers.getD pos 0
  if curr - t > 5 ∧ t > 0 then
    let w := idxOf t st.timers + 1
    { st with
      stops := st.stops ++ [w]
      maps := st.maps.map (fun m => if m == (w : Int) then 0 else m)
      timers := st.timers.set (w - 1) 0 }
  else st

/-- The whole timeout scan of one empty poll (lines 194-204). -/
def scanTimers (curr : Nat) (st : MasterState) : MasterState :=
  (List.range st.timers.length).foldl (scanStep curr) st

/-- One observable event of the monitoring loop: either a completion
message is consumed (lines 205-227), or the poll was empty and the
timeout scan runs (lines 194-204). -/
inductive Event where
  | msg (w : Nat) (idxs : List Nat) (res : List CountsMap) (now : Nat)
  | tick (now : Nat)
deriving Repr

def stepEvent (st : MasterState) : Event → MasterState
  | .msg w idxs res now => dispatchNext w (completeMsg w idxs res now st)
  | .tick now => scanTimers now st

/-- Line 169, the condition of the monitoring loop:
`while 0 in maps or recieved < len(log_files)`. -/
def loopGuard (st : MasterState) : Bool :=
  (0 ∈ st.maps) || st.recieved < st.logFiles.length

/-- The monitoring loop run over a list of events: each iteration first
checks the guard (exiting to the stop broadcast of lines 230-231 when it
fails), then processes one event. -/
def run (st : MasterState) : List Event → MasterState
  | [] => st
  | e :: es => if loopGuard st then run (stepEvent st e) es else st

/-- Lines 145-150: the first (up to) `10*(size-1)` Pending indices.  The
length test sits after the append, so with `size = 1` the bound `0` is
never reached and every Pending index is collected. -/
def firstIndices (maps : List Int) (size : Nat) : List Nat :=
  if 10 * (size - 1) == 0 then pendingIdx maps
  else (pendingIdx maps).take (10 * (size - 1))

/-- Lines 152-164 for worker `i`: its slice of `first_indices` is sent
(possibly empty), those units are marked Assigned to `i`, and
`timers[i-1]` is set to the dispatch time. -/
def dispatchInitialTo (fi : List Nat) (now : Nat) (st : MasterState) (i : Nat) :
    MasterState :=
  let batch := (fi.drop ((i - 1) * 10)).take 10
  { st with
    maps := assignBatch batch (i : Int) st.maps
    timers := st.timers.set (i - 1) now
    sent := st.sent ++ [(i, batch)] }

/-- The initial dispatch block (lines 140-164), run over workers
`1 .. size-1` after the state was built fresh or from a checkpoint. -/
def initialDispatch (size now : Nat) (st : MasterState) : MasterState :=
  (List.range' 1 (size - 1)).foldl (dispatchInitialTo (firstIndices st.maps size) now) st

/-- The fresh-start state (lines 105-108 and 122-127, 140): one Pending
unit per discovered file, timers all clear. -/
def freshState (files : List String) (size : Nat) : MasterState :=
  { logFiles := files
    maps := List.replicate files.length 0
    recieved := 0
    results := []
    timers := List.replicate size 0
    stops := []
    sent := [] }

/-- Fresh start followed by the initial dispatch. -/
def initState (files : List String) (size now : Nat) : MasterState :=
  initialDispatch size now (freshState files size)

/-- Lines 111-121, resume from a checkpoint: Done units for the
processed files, Pending units for the pending files, the received
counter primed with the processed count, and `results` empty. -/
def restoreState (processed pending : List String) (size : Nat) : MasterState :=
  { logFiles := processed ++ pending
    maps := List.replicate processed.length (-1) ++ List.replicate pending.length 0
    recieved := processed.length
    results := []
    timers := List.replicate size 0
    stops := []
    sent := [] }

/-- Lines 180-186 (identically 239-245): partition the files by unit
state, Done units to `processed_files`, everything else (Pending or
Assigned) to `pending_files`. -/
def snapshotLists (st : MasterState) : List String × List String :=
  (List.range st.maps.length).foldl
    (fun acc i =>
      if st.maps.getD i 0 == -1 then (acc.1 ++ [st.logFiles.getD i ""], acc.2)
      else (acc.1, acc.2 ++ [st.logFiles.getD i ""]))
    ([], [])

/-- Number of units currently Done. -/
def countDone (maps : List Int) : Nat :=
  (maps.filter (fun m => m == -1)).length

/-! ## Checkpoint store

`save_checkpoint` (lines 69-88) removes the whole `checkpoint` folder,
recreates it, and then writes `checkpoint.json`.  We model the sequence
of filesystem states an interruption could expose, and the read side of
lines 111-117: no file means a fresh start, a half-written file makes
`json.load` raise, a complete file yields its record. -/

structure CheckpointRecord where
  timestamp : Nat
  counts : CountsMap
  processedFiles : List String
  pendingFiles : List String
deriving DecidableEq, Repr

inductive CkptFS where
  | absent
  | midWrite
  | complete (rec : CheckpointRecord)
deriving DecidableEq, Repr

inductive LoadOutcome where
  | notFound
  | corrupt
  | record (rec : CheckpointRecord)
deriving DecidableEq, Repr

/-- The resume read (lines 111-117): `os.path.exists` then `json.load`. -/
def loadCkpt : CkptFS → LoadOutcome
  | .absent => .notFound
  | .midWrite => .corrupt
  | .complete r => .record r

/-- The filesystem states visible if `save_checkpoint` is interrupted:
before the call, after `shutil.rmtree`, after `os.makedirs`, while
`json.dump` is writing, and after the write finishes. -/
def saveSteps (old : CkptFS) (newRec : CheckpointRecord) : List CkptFS :=
  [old, .absent, .absent, .midWrite, .complete newRec]

/-! ## Helper lemmas on the list model -/

theorem getD_range_map {α : Type} (f : Nat → α) (d : α) (n i : Nat) (h : i < n) :
    ((List.range n).map f).getD i d = f i := by
  simp [List.getD_eq_getElem?_getD, List.getElem?_map, List.getElem?_range, h]

theorem getD_of_length_le {α : Type} (l : List α) (d : α) (i : Nat)
    (h : l.length ≤ i) : l.getD i d = d := by
  simp [List.getD_eq_getElem?_getD, List.getElem?_eq_none h]

theorem length_markDone (idxs : List Nat) (maps : List Int) :
    (markDone idxs maps).length = maps.length := by
  simp [markDone]

theorem getD_markDone (idxs : List Nat) (maps : List Int) (i : Nat)
    (h : i < maps.length) :
    (markDone idxs maps).getD i 0 = if i ∈ idxs then -1 else maps.getD i 0 := by
  rw [markDone]
  exact getD_range_map _ _ _ _ h

theorem markDone_idem (idxs : List Nat) (maps : List Int) :
    markDone idxs (markDone idxs maps) = markDone idxs maps := by
  show (List.range (markDone idxs maps).length).map
      (fun i => if i ∈ idxs then -1 else (markDone idxs maps).getD i 0) = markDone idxs maps
  rw [length_markDone]
  conv_rhs => rw [markDone]
  refine List.map_congr_left ?_
  intro i hi
  rw [List.mem_range] at hi
  rw [getD_markDone _ _ _ hi]
  by_cases h : i ∈ idxs <;> simp [h]

theorem length_assignBatch (batch : List Nat) (w : Int) (maps : List Int) :
    (assignBatch batch w maps).length = maps.length := by
  simp [assignBatch]

theorem getD_assignBatch (batch : List Nat) (w : Int) (maps : List Int) (i : Nat)
    (h : i < maps.length) :
    (assignBatch batch w maps).getD i 0 = if i ∈ batch then w else maps.getD i 0 := by
  rw [assignBatch]
  exact getD_range_map _ _ _ _ h

theorem mem_pendingIdx (maps : List Int) (i : Nat) :
    i ∈ pendingIdx maps ↔ i < maps.length ∧ maps.getD i 0 = 0 := by
  simp [pendingIdx, List.mem_filter, List.mem_range]

theorem getD_eq_getElem (l : List Int) (i : Nat) (h : i < l.length) :
    l.getD i 0 = l[i] := by
  simp [List.getD_eq_getElem?_getD, List.getElem?_eq_getElem h]

theorem pendingIdx_ne_nil (maps : List Int) (h : 0 ∈ maps) :
    pendingIdx maps ≠ [] := by
  obtain ⟨n, hn, he⟩ := List.mem_iff_getElem.mp h
  refine List.ne_nil_of_mem (a := n) ?_
  rw [mem_pendingIdx]
  exact ⟨hn, by rw [getD_eq_getElem _ _ hn, he]⟩

theorem length_filter_not_add (p : Nat → Bool) (l : List Nat) :
    (l.filter p).length + (l.filter (fun a => ! p a)).length = l.length := by
  induction l with
  | nil => simp
  | cons a t ih =>
    by_cases h : p a <;> simp [List.filter_cons, h] <;> omega

theorem all_of_filter_length_eq {α : Type} (p : α → Bool) (l : List α)
    (h : (l.filter p).length = l.length) : ∀ x ∈ l, p x = true := by
  induction l with
  | nil => simp
  | cons a t ih =>
    by_cases hp : p a
    · intro x hx
      rcases List.mem_cons.mp hx with hxa | hxt
      · rw [hxa]; exact hp
      · refine ih ?_ x hxt
        simpa [List.filter_cons, hp] using h
    · exfalso
      have hle := List.length_filter_le p t
      simp [List.filter_cons, hp] at h
      omega

/-! ## Concrete fixtures used by counterexamples and witnesses -/

/-- Twelve log files; with three ranks, worker 1 receives indices 0-9
and worker 2 receives indices 10 and 11 at the initial dispatch. -/
def files12 : List String := List.replicate 12 "f.log"

/-- Ten identical per-file partial results. -/
def resTen : List CountsMap := List.replicate 10 [("INFO", 1)]

/-! ## Claims -/

/-- C9: `analyse_log_file` assigns each line to at most one category
(`classifyLine` returns at most one level), testing `[INFO]`, then
`[WARN]`/`[WARNING]`, then `[ERROR]`, then `[DEBUG]` in that fixed
order, so a line with several markers increments only the earliest one
and the sum of all returned counts is at most the number of lines. -/
theorem analyse_fixed_order_sum_le (lines : List String) (l : String) :
    sumCounts (analyseLogFile lines) ≤ lines.length ∧
    (strHas l "[INFO]" = true → classifyLine l = some LogLevel.INFO) ∧
    (strHas l "[INFO]" = false →
      (strHas l "[WARN]" || strHas l "[WARNING]") = true →
      classifyLine l = some LogLevel.WARN) ∧
    (strHas l "[INFO]" = false →
      (strHas l "[WARN]" || strHas l "[WARNING]") = false →
      strHas l "[ERROR]" = true → classifyLine l = some LogLevel.ERROR) ∧
    (strHas l "[INFO]" = false →
      (strHas l "[WARN]" || strHas l "[WARNING]") = false →
      strHas l "[ERROR]" = false → strHas l "[DEBUG]" = true →
      classifyLine l = some LogLevel.DEBUG) ∧
    (strHas l "[INFO]" = false →
      (strHas l "[WARN]" || strHas l "[WARNING]") = false →
      strHas l "[ERROR]" = false → strHas l "[DEBUG]" = false →
      classifyLine l = none) := by
  refine ⟨?_, ?_, ?_, ?_, ?_, ?_⟩
  · have h := sumCounts_analyse_foldl lines []
    simpa [analyseLogFile, sumCounts] using h
  · intro h1; simp [classifyLine, h1]
  · intro h1 h2; simp [classifyLine, h1, h2]
  · intro h1 h2 h3; simp [classifyLine, h1, h2, h3]
  · intro h1 h2 h3 h4; simp [classifyLine, h1, h2, h3, h4]
  · intro h1 h2 h3 h4; simp [classifyLine, h1, h2, h3, h4]

theorem analyse_fixed_order_sum_le_w :
    sumCounts (analyseLogFile ["a [INFO] b [ERROR]", "no level here"]) ≤ 2 ∧
    classifyLine "a [INFO] b [ERROR]" = some LogLevel.INFO :=
  ⟨(analyse_fixed_order_sum_le ["a [INFO] b [ERROR]", "no level here"] "x").1,
   (analyse_fixed_order_sum_le [] "a [INFO] b [ERROR]").2.1 (by decide)⟩

/-- C1 counterexample: from the freshly dispatched one-file state,
accepting the same completion message twice leaves the final aggregate
counting the unit's contribution twice — lines 205-213 extend `results`
unconditionally, and lines 233-235 fold every stored result, so the
aggregate does not reflect each unit's contribution exactly once. -/
theorem complete_twice_aggregate_cex :
    getCount (mergeAllD []
      (completeMsg 1 [0] [[("INFO", 1)]] 11
        (completeMsg 1 [0] [[("INFO", 1)]] 11 (initState ["a.log"] 2 10))).results)
      "INFO" ≠
    getCount (mergeAllD []
      (completeMsg 1 [0] [[("INFO", 1)]] 11 (initState ["a.log"] 2 10)).results)
      "INFO" := by
  decide

/-- C1 amended: accepting the same completion message twice leaves the
unit-state map exactly as after one acceptance (marking indices Done is
idempotent), but the received counter grows again and the PartialResults
are appended again, so the final aggregate folds each report's
contribution once per acceptance — not only for indices that actually
transitioned to Done on that call. -/
theorem complete_twice_maps_once_results_twice (st : MasterState) (w : Nat)
    (idxs : List Nat) (res : List CountsMap) (n1 n2 : Nat) :
    (completeMsg w idxs res n2 (completeMsg w idxs res n1 st)).maps =
      (completeMsg w idxs res n1 st).maps ∧
    (completeMsg w idxs res n2 (completeMsg w idxs res n1 st)).results =
      st.results ++ res ++ res ∧
    (completeMsg w idxs res n2 (completeMsg w idxs res n1 st)).recieved =
      st.recieved + res.length + res.length := by
  refine ⟨?_, ?_, ?_⟩
  · simp [completeMsg, markDone_idem]
  · simp [completeMsg]
  · simp [completeMsg]

/-- C2 counterexample: reachable run on one file with two workers — the
tick at time 16 times worker 1 out and reclaims unit 0; worker 2's empty
completion redispatches unit 0 to worker 2; worker 1's stale report for
unit 0 is then accepted, marking the unit Done and extending `results`,
instead of being silently dropped with state and aggregate unchanged. -/
theorem stale_report_accepted_cex :
    (run (initState ["a.log"] 3 10) [Event.tick 16, Event.msg 2 [] [] 17]).maps.getD 0 0
      = 2 ∧
    (stepEvent (run (initState ["a.log"] 3 10) [Event.tick 16, Event.msg 2 [] [] 17])
      (Event.msg 1 [0] [[("ERROR", 1)]] 18)).maps.getD 0 0 = -1 ∧
    (stepEvent (run (initState ["a.log"] 3 10) [Event.tick 16, Event.msg 2 [] [] 17])
      (Event.msg 1 [0] [[("ERROR", 1)]] 18)).results ≠
    (run (initState ["a.log"] 3 10) [Event.tick 16, Event.msg 2 [] [] 17]).results := by
  refine ⟨by decide, by decide, by decide⟩

/-- C2 amended: a completion message is accepted without any ownership
check — every reported index is marked Done whatever its current state
(including Assigned to a different worker), and the report's
PartialResults are appended to the results folded into the aggregate. -/
theorem report_any_index_marked_done (st : MasterState) (w : Nat) (idxs : List Nat)
    (res : List CountsMap) (now i : Nat) (hmem : i ∈ idxs) (hlen : i < st.maps.length) :
    (completeMsg w idxs res now st).maps.getD i 0 = -1 ∧
    (completeMsg w idxs res now st).results = st.results ++ res := by
  refine ⟨?_, rfl⟩
  show (markDone idxs st.maps).getD i 0 = -1
  rw [getD_markDone _ _ _ hlen]
  simp [hmem]

theorem report_any_index_marked_done_w :
    (completeMsg 1 [0] [[("ERROR", 1)]] 18
      { logFiles := ["a.log"], maps := [2], recieved := 0, results := [],
        timers := [0, 17, 0], stops := [1, 2], sent := [] }).maps.getD 0 0 = -1 :=
  (report_any_index_marked_done
    { logFiles := ["a.log"], maps := [2], recieved := 0, results := [],
      timers := [0, 17, 0], stops := [1, 2], sent := [] }
    1 [0] [[("ERROR", 1)]] 18 0 (by decide) (by decide)).1

/-- C3 counterexample: on twelve files with three ranks the initial
dispatch assigns units 0-9 to worker 1 and units 10-11 to worker 2;
after worker 1's report for units 0-9 is accepted twice (a duplicate),
`recieved` reaches 20 ≥ 12 and no unit is Pending, so the loop condition
of line 169 fails and the Coordinator proceeds to the stop broadcast of
lines 230-231 while units 10 and 11 are still Assigned to worker 2 —
it exits Monitoring without `isComplete()`. -/
theorem exit_with_assigned_cex :
    loopGuard (run (initState files12 3 10)
      [Event.msg 1 (List.range 10) resTen 11,
       Event.msg 1 (List.range 10) resTen 12]) = false ∧
    (run (initState files12 3 10)
      [Event.msg 1 (List.range 10) resTen 11,
       Event.msg 1 (List.range 10) resTen 12]).maps.getD 10 0 = 2 := by
  refine ⟨by decide, by decide⟩

/-- C3 amended: the loop exits when no unit is Pending and the received
result count has reached the number of files; duplicate reports inflate
that count, so exit with Assigned units is possible.  Whenever the
received count is bounded by the number of Done units (as on any
duplicate-free run), a failed loop guard does imply every unit is
Done. -/
theorem exit_all_done_of_received_bounded (st : MasterState)
    (hg : loopGuard st = false) (hb : st.recieved ≤ countDone st.maps)
    (hl : st.logFiles.length = st.maps.length) :
    ∀ i, i < st.maps.length → st.maps.getD i 0 = -1 := by
  intro i hi
  have hrec : st.logFiles.length ≤ st.recieved := by
    simp [loopGuard] at hg
    exact hg.2
  have hcd : countDone st.maps ≤ st.maps.length :=
    List.length_filter_le _ _
  have hall : ∀ x ∈ st.maps, (x == (-1 : Int)) = true := by
    refine all_of_filter_length_eq _ _ ?_
    have : countDone st.maps = st.maps.length := by
      rw [countDone] at *
      omega
    exact this
  rw [getD_eq_getElem _ _ hi]
  have := hall st.maps[i] (st.maps.getElem_mem hi)
  exact beq_iff_eq.mp this

theorem exit_all_done_of_received_bounded_w :
    ({ logFiles := ["a.log"], maps := [-1], recieved := 1,
       results := [[("INFO", 1)]], timers := [11, 0], stops := [],
       sent := [(1, [0])] } : MasterState).maps.getD 0 0 = -1 :=
  exit_all_done_of_received_bounded
    { logFiles := ["a.log"], maps := [-1], recieved := 1,
      results := [[("INFO", 1)]], timers := [11, 0], stops := [],
      sent := [(1, [0])] }
    (by decide) (by decide) (by decide) 0 (by decide)

/-- C4: the claim is right and the code has a slip.  On resume,
line 117 replaces the `defaultdict(int)` total with the plain `dict`
parsed from `checkpoint.json`, so the final fold of lines 233-235
(`total_counts[level] += count`) raises `KeyError` as soon as a
remaining unit's result contains a level absent from the checkpoint
counts.  Evaluated here: resuming from a checkpoint with counts
`{INFO: 3}`, processed `[a.log]`, pending `[b.log]`, and completing the
remaining unit with result `{ERROR: 1}` crashes (`none`), while the
never-checkpointed run over the same per-file results yields the
aggregate `{INFO: 3, ERROR: 1}`. -/
theorem resume_plain_dict_keyerror :
    mergeAllP [("INFO", 3)]
      (stepEvent (initialDispatch 2 10 (restoreState ["a.log"] ["b.log"] 2))
        (Event.msg 1 [1] [[("ERROR", 1)]] 11)).results = none ∧
    getCount (mergeAllD [] [[("INFO", 3)], [("ERROR", 1)]]) "ERROR" = 1 ∧
    getCount (mergeAllD [] [[("INFO", 3)], [("ERROR", 1)]]) "INFO" = 3 := by
  refine ⟨by decide, by decide, by decide⟩

theorem getD_reclaim_done (l : List Int) (w i : Nat) (h : l.getD i 0 = -1) :
    (l.map (fun m => if m == (w : Int) then 0 else m)).getD i 0 = -1 := by
  have hi : i < l.length := by
    by_contra hge
    rw [getD_of_length_le _ _ _ (Nat.le_of_not_lt hge)] at h
    exact absurd h (by decide)
  have hlen : i < (l.map (fun m => if m == (w : Int) then 0 else m)).length := by
    simpa using hi
  rw [getD_eq_getElem _ _ hlen, List.getElem_map]
  rw [getD_eq_getElem _ _ hi] at h
  rw [h]
  have hne : ((-1 : Int) == (w : Int)) = false := by
    rw [beq_eq_false_iff_ne]
    intro hc
    omega
  simp [hne]

theorem scanStep_preserves_done (curr i : Nat) (st : MasterState) (pos : Nat)
    (h : st.maps.getD i 0 = -1) : (scanStep curr st pos).maps.getD i 0 = -1 := by
  rw [scanStep]
  split
  · exact getD_reclaim_done _ _ _ h
  · exact h

theorem foldl_scanStep_done (curr i : Nat) (ps : List Nat) :
    ∀ st : MasterState, st.maps.getD i 0 = -1 →
      ((ps.foldl (scanStep curr) st).maps.getD i 0 = -1) := by
  induction ps with
  | nil => intro st h; exact h
  | cons p t ih =>
    intro st h
    exact ih _ (scanStep_preserves_done curr i st p h)

theorem dispatchNext_preserves_done (w : Nat) (st : MasterState) (i : Nat)
    (h : st.maps.getD i 0 = -1) : (dispatchNext w st).maps.getD i 0 = -1 := by
  have hi : i < st.maps.length := by
    by_contra hge
    rw [getD_of_length_le _ _ _ (Nat.le_of_not_lt hge)] at h
    exact absurd h (by decide)
  rw [dispatchNext]
  split
  · have hnf : i ∉ (pendingIdx st.maps).take 10 := by
      intro hc
      have hp := (mem_pendingIdx st.maps i).mp (List.take_subset 10 _ hc)
      rw [hp.2] at h
      exact absurd h (by decide)
    show (assignBatch ((pendingIdx st.maps).take 10) (w : Int) st.maps).getD i 0 = -1
    rw [getD_assignBatch _ _ _ _ hi, if_neg hnf]
    exact h
  · exact h

/-- C5 counterexample: reachable run on one file with two ranks — unit 0
is dispatched to worker 1, the tick at time 16 reclaims it to Pending,
and worker 1's late completion then marks it Done: the unit moves
directly from Pending to Done, a transition the claim says never
happens. -/
theorem pending_to_done_cex :
    (run (initState ["a.log"] 2 10) [Event.tick 16]).maps.getD 0 0 = 0 ∧
    (run (initState ["a.log"] 2 10)
      [Event.tick 16, Event.msg 1 [0] [[("INFO", 1)]] 17]).maps.getD 0 0 = -1 := by
  refine ⟨by decide, by decide⟩

/-- C5 amended: dispatch and timeout reclaim behave as claimed, but a
completion message marks every reported index Done regardless of its
current state, so a unit can also move Pending→Done (a late report
arriving after its reclaim) or Assigned(other)→Done; what does survive
of the claim is that Done is terminal: no event ever changes a Done
unit's state. -/
theorem done_never_left (st : MasterState) (e : Event) (i : Nat)
    (h : st.maps.getD i 0 = -1) : (stepEvent st e).maps.getD i 0 = -1 := by
  have hi : i < st.maps.length := by
    by_contra hge
    rw [getD_of_length_le _ _ _ (Nat.le_of_not_lt hge)] at h
    exact absurd h (by decide)
  cases e with
  | tick now => exact foldl_scanStep_done now i _ st h
  | msg w idxs res now =>
    have h1 : (completeMsg w idxs res now st).maps.getD i 0 = -1 := by
      show (markDone idxs st.maps).getD i 0 = -1
      rw [getD_markDone _ _ _ hi]
      by_cases hm : i ∈ idxs
      · rw [if_pos hm]
      · rw [if_neg hm]; exact h
    exact dispatchNext_preserves_done w _ i h1

theorem done_never_left_w :
    (stepEvent
      { logFiles := ["a.log", "b.log"], maps := [-1, 0], recieved := 1,
        results := [[("INFO", 1)]], timers := [11, 0], stops := [],
        sent := [(1, [0])] }
      (Event.msg 1 [1] [[("WARN", 1)]] 12)).maps.getD 0 0 = -1 :=
  done_never_left
    { logFiles := ["a.log", "b.log"], maps := [-1, 0], recieved := 1,
      results := [[("INFO", 1)]], timers := [11, 0], stops := [],
      sent := [(1, [0])] }
    (Event.msg 1 [1] [[("WARN", 1)]] 12) 0 (by decide)

theorem getD_set_self (l : List Nat) (i v : Nat) (h : i < l.length) :
    (l.set i v).getD i 0 = v := by
  simp [List.getD_eq_getElem?_getD, List.getElem?_set, h]

theorem getD_map_ite (l : List Int) (v : Int) (i : Nat) (hi : i < l.length) :
    (l.map (fun m => if m == v then 0 else m)).getD i 0 =
      if l.getD i 0 == v then 0 else l.getD i 0 := by
  have hlen : i < (l.map fun m => if m == v then 0 else m).length := by simpa using hi
  rw [getD_eq_getElem _ _ hlen, List.getElem_map, getD_eq_getElem _ _ hi]

/-- C6 counterexample: reachable run on twelve files with three ranks —
after worker 1's completion for units 0-9 is accepted at time 11 it
holds no Assigned unit (units 10-11 belong to worker 2), yet the scan at
time 17 still declares it dead and sends it a stop signal, because
lines 196-197 test only `curr-t>5.0 and t>0.0` and never check whether
the worker still has units Assigned to it.  This refutes the "exactly
when ... and it still has units Assigned" part of the claim. -/
theorem idle_worker_declared_dead_cex :
    (1 : Int) ∉ (run (initState files12 3 10)
      [Event.msg 1 (List.range 10) resTen 11]).maps ∧
    1 ∈ (stepEvent (run (initState files12 3 10)
      [Event.msg 1 (List.range 10) resTen 11]) (Event.tick 17)).stops := by
  refine ⟨by decide, by decide⟩

/-- C6 amended: on a scan tick a worker is declared dead exactly when
`curr - t > 5` and `t > 0` for its timer `t`, regardless of whether it
still holds Assigned units; when declared dead it is sent a stop signal,
every unit Assigned to it returns to Pending (making it eligible for
redispatch), and its timer is cleared. -/
theorem scan_timeout_exact (curr : Nat) (st : MasterState) (pos : Nat) :
    (¬ (curr - st.timers.getD pos 0 > 5 ∧ st.timers.getD pos 0 > 0) →
      scanStep curr st pos = st) ∧
    (curr - st.timers.getD pos 0 > 5 → st.timers.getD pos 0 > 0 →
      idxOf (st.timers.getD pos 0) st.timers = pos → pos < st.timers.length →
      (scanStep curr st pos).stops = st.stops ++ [pos + 1] ∧
      (scanStep curr st pos).timers.getD pos 0 = 0 ∧
      (∀ i, i < st.maps.length →
        (st.maps.getD i 0 = ((pos + 1 : Nat) : Int) →
          (scanStep curr st pos).maps.getD i 0 = 0) ∧
        (st.maps.getD i 0 ≠ ((pos + 1 : Nat) : Int) →
          (scanStep curr st pos).maps.getD i 0 = st.maps.getD i 0))) := by
  constructor
  · intro h
    simp only [scanStep]
    rw [if_neg h]
  · intro h1 h2 h3 h4
    have hc : curr - st.timers.getD pos 0 > 5 ∧ st.timers.getD pos 0 > 0 := ⟨h1, h2⟩
    refine ⟨?_, ?_, ?_⟩
    · simp only [scanStep]
      rw [if_pos hc, h3]
    · simp only [scanStep]
      rw [if_pos hc, h3]
      show (st.timers.set (pos + 1 - 1) 0).getD pos 0 = 0
      simpa using getD_set_self st.timers pos 0 h4
    · intro i hi
      constructor
      · intro hv
        simp only [scanStep]
        rw [if_pos hc, h3]
        show (st.maps.map (fun m => if m == ((pos + 1 : Nat) : Int) then 0 else m)).getD i 0 = 0
        rw [getD_map_ite _ _ _ hi, hv]
        simp
      · intro hv
        simp only [scanStep]
        rw [if_pos hc, h3]
        show (st.maps.map (fun m => if m == ((pos + 1 : Nat) : Int) then 0 else m)).getD i 0 =
          st.maps.getD i 0
        rw [getD_map_ite _ _ _ hi]
        have hb : (st.maps.getD i 0 == ((pos + 1 : Nat) : Int)) = false :=
          beq_eq_false_iff_ne.mpr hv
        rw [hb]
        simp

theorem scan_timeout_exact_w :
    (scanStep 16
      { logFiles := ["a.log"], maps := [1], recieved := 0, results := [],
        timers := [10, 0], stops := [], sent := [] } 0).stops = [] ++ [1] ∧
    (scanStep 16
      { logFiles := ["a.log"], maps := [1], recieved := 0, results := [],
        timers := [10, 0], stops := [], sent := [] } 0).maps.getD 0 0 = 0 := by
  have h := (scan_timeout_exact 16
    { logFiles := ["a.log"], maps := [1], recieved := 0, results := [],
      timers := [10, 0], stops := [], sent := [] } 0).2
    (by decide) (by decide) (by decide) (by decide)
  exact ⟨h.1, (h.2.2 0 (by decide)).1 (by decide)⟩

/-- A checkpoint record present before a save. -/
def oldRec : CheckpointRecord :=
  { timestamp := 100, counts := [("INFO", 2)],
    processedFiles := ["a.log"], pendingFiles := ["b.log"] }

/-- The record a later save writes. -/
def newRec : CheckpointRecord :=
  { timestamp := 200, counts := [("INFO", 5)],
    processedFiles := ["a.log", "b.log"], pendingFiles := [] }

/-- C7 counterexample: `save_checkpoint` deletes the whole checkpoint
folder (`shutil.rmtree`, line 72) before writing the new record, so an
interruption just after the deletion leaves `load()` finding no record
at all — neither the complete old nor the complete new record — and an
interruption in the middle of `json.dump` leaves a partially written
file that `json.load` cannot parse.  Both refute the claim that at every
interruption point `load()` returns one of the two complete records. -/
theorem save_interrupted_cex :
    loadCkpt ((saveSteps (CkptFS.complete oldRec) newRec).getD 1 CkptFS.absent) ≠
      LoadOutcome.record oldRec ∧
    loadCkpt ((saveSteps (CkptFS.complete oldRec) newRec).getD 1 CkptFS.absent) ≠
      LoadOutcome.record newRec ∧
    loadCkpt ((saveSteps (CkptFS.complete oldRec) newRec).getD 3 CkptFS.absent) =
      LoadOutcome.corrupt := by
  refine ⟨by decide, by decide, by decide⟩

/-- C7 amended: a save interrupted at any point leaves `load()` finding
the complete old record, no record at all, an unparseable half-written
file, or the complete new record — never a mixed record combining the
two; but "complete old or complete new" alone does not hold, because the
prior record is deleted before the new one is written. -/
theorem save_steps_outcomes (old newR : CheckpointRecord) (s : CkptFS)
    (hs : s ∈ saveSteps (CkptFS.complete old) newR) :
    loadCkpt s = LoadOutcome.record old ∨ loadCkpt s = LoadOutcome.notFound ∨
    loadCkpt s = LoadOutcome.corrupt ∨ loadCkpt s = LoadOutcome.record newR := by
  simp only [saveSteps, List.mem_cons, List.mem_singleton, List.not_mem_nil, or_false] at hs
  rcases hs with h | h | h | h | h <;> subst h <;> simp [loadCkpt]

theorem save_steps_outcomes_w :
    loadCkpt CkptFS.midWrite = LoadOutcome.record oldRec ∨
    loadCkpt CkptFS.midWrite = LoadOutcome.notFound ∨
    loadCkpt CkptFS.midWrite = LoadOutcome.corrupt ∨
    loadCkpt CkptFS.midWrite = LoadOutcome.record newRec :=
  save_steps_outcomes oldRec newRec CkptFS.midWrite (by decide)

theorem foldl_partition (g : Nat → String) (p : Nat → Bool) (l : List Nat) :
    ∀ a b : List String,
      l.foldl (fun acc i =>
        if p i then (acc.1 ++ [g i], acc.2) else (acc.1, acc.2 ++ [g i])) (a, b) =
      (a ++ (l.filter p).map g, b ++ (l.filter (fun i => ! p i)).map g) := by
  induction l with
  | nil => intro a b; simp
  | cons x t ih =>
    intro a b
    by_cases h : p x <;> simp [List.filter_cons, h, ih]

/-- C8: every checkpoint record built from the snapshot loop of
lines 180-186 (and identically 239-245) partitions the units: the
processed list is exactly the files of Done indices, the pending list is
exactly the files of every other index (Pending or Assigned), their
lengths sum to the number of units, and a unit that is not Done — in
particular an Assigned one — is reported in the pending list. -/
theorem snapshot_partition (st : MasterState) :
    (snapshotLists st).1 =
      ((List.range st.maps.length).filter (fun i => st.maps.getD i 0 == -1)).map
        (fun i => st.logFiles.getD i "") ∧
    (snapshotLists st).2 =
      ((List.range st.maps.length).filter (fun i => ! (st.maps.getD i 0 == -1))).map
        (fun i => st.logFiles.getD i "") ∧
    (snapshotLists st).1.length + (snapshotLists st).2.length = st.maps.length ∧
    (∀ i, i < st.maps.length → st.maps.getD i 0 ≠ -1 →
      st.logFiles.getD i "" ∈ (snapshotLists st).2) := by
  have h := foldl_partition (fun i => st.logFiles.getD i "")
    (fun i => st.maps.getD i 0 == -1) (List.range st.maps.length) [] []
  have hs : snapshotLists st =
      (((List.range st.maps.length).filter (fun i => st.maps.getD i 0 == -1)).map
        (fun i => st.logFiles.getD i ""),
       ((List.range st.maps.length).filter (fun i => ! (st.maps.getD i 0 == -1))).map
        (fun i => st.logFiles.getD i "")) := by
    rw [snapshotLists]
    simpa using h
  refine ⟨by rw [hs], by rw [hs], ?_, ?_⟩
  · rw [hs]
    simp only [List.length_map]
    rw [length_filter_not_add]
    exact List.length_range st.maps.length
  · intro i hi hne
    rw [hs]
    refine List.mem_map_of_mem _ ?_
    rw [List.mem_filter]
    refine ⟨List.mem_range.mpr hi, ?_⟩
    have hb : (st.maps.getD i 0 == (-1 : Int)) = false := beq_eq_false_iff_ne.mpr hne
    show (! (st.maps.getD i 0 == (-1 : Int))) = true
    rw [hb]
    rfl

theorem snapshot_partition_w :
    (snapshotLists
      { logFiles := ["a.log", "b.log"], maps := [-1, 2], recieved := 2,
        results := [], timers := [11, 0, 0], stops := [], sent := [] }).1.length +
    (snapshotLists
      { logFiles := ["a.log", "b.log"], maps := [-1, 2], recieved := 2,
        results := [], timers := [11, 0, 0], stops := [], sent := [] }).2.length = 2 ∧
    "b.log" ∈ (snapshotLists
      { logFiles := ["a.log", "b.log"], maps := [-1, 2], recieved := 2,
        results := [], timers := [11, 0, 0], stops := [], sent := [] }).2 :=
  ⟨(snapshot_partition
      { logFiles := ["a.log", "b.log"], maps := [-1, 2], recieved := 2,
        results := [], timers := [11, 0, 0], stops := [], sent := [] }).2.2.1,
   (snapshot_partition
      { logFiles := ["a.log", "b.log"], maps := [-1, 2], recieved := 2,
        results := [], timers := [11, 0, 0], stops := [], sent := [] }).2.2.2
      1 (by decide) (by decide)⟩

theorem take10_ne_nil (l : List Nat) (h : l ≠ []) : l.take 10 ≠ [] := by
  cases l with
  | nil => exact absurd rfl h
  | cons x xs => simp [List.take]

/-- C10: a completion message from a worker whose timer was cleared by a
previous timeout (a presumed-dead worker) is handled exactly like one
from a live worker: line 213 resets the sender's liveness timer to the
current time, and if Pending units remain after marking, lines 217-227
assign and send the next batch to that same presumed-dead worker; the
state carries no generation counter that could distinguish the stale
sender. -/
theorem timed_out_worker_reset_redispatch (st : MasterState) (w : Nat)
    (idxs : List Nat) (res : List CountsMap) (now : Nat)
    (htimer : st.timers.getD (w - 1) 0 = 0) (hw : w - 1 < st.timers.length) :
    (stepEvent st (Event.msg w idxs res now)).timers.getD (w - 1) 0 = now ∧
    (0 ∈ markDone idxs st.maps →
      (stepEvent st (Event.msg w idxs res now)).sent =
        st.sent ++ [(w, (pendingIdx (markDone idxs st.maps)).take 10)] ∧
      (pendingIdx (markDone idxs st.maps)).take 10 ≠ []) := by
  constructor
  · have ht : (dispatchNext w (completeMsg w idxs res now st)).timers =
        (completeMsg w idxs res now st).timers := by
      rw [dispatchNext]
      split <;> rfl
    show (dispatchNext w (completeMsg w idxs res now st)).timers.getD (w - 1) 0 = now
    rw [ht]
    show (st.timers.set (w - 1) now).getD (w - 1) 0 = now
    exact getD_set_self _ _ _ hw
  · intro h0
    refine ⟨?_, take10_ne_nil _ (pendingIdx_ne_nil _ h0)⟩
    show (dispatchNext w (completeMsg w idxs res now st)).sent =
      st.sent ++ [(w, (pendingIdx (markDone idxs st.maps)).take 10)]
    rw [dispatchNext]
    rw [if_pos (show (0 : Int) ∈ (completeMsg w idxs res now st).maps from h0)]
    rfl

theorem timed_out_worker_reset_redispatch_w :
    (stepEvent (run (initState ["a.log"] 3 10) [Event.tick 16])
      (Event.msg 2 [] [] 17)).timers.getD 1 0 = 17 ∧
    (stepEvent (run (initState ["a.log"] 3 10) [Event.tick 16])
      (Event.msg 2 [] [] 17)).sent =
      (run (initState ["a.log"] 3 10) [Event.tick 16]).sent ++ [(2, [0])] := by
  have h := timed_out_worker_reset_redispatch
    (run (initState ["a.log"] 3 10) [Event.tick 16]) 2 [] [] 17 (by decide) (by decide)
  exact ⟨h.1, (h.2 (by decide)).1⟩

end LogAnalyzer
